import Mathlib

/-!
Verification development for the theme-watch comparison pipeline.

Texts are modelled as lists of characters (`Str`); machine strings used as
map keys stay `String`.  Each definition is a shallow embedding of the
corresponding function in the repository sources; the two third-party diff
algorithms (`diff_match_patch.diff_main` + `diff_cleanupSemantic`, and the
`diff` package's `diffLines`), which are library code not present in the
repository, are modelled from the specification as noted on their
definitions.
-/

namespace ThemeWatch

abbrev Str := List Char

/-- Splits two lists into (common prefix, remainder of first, remainder of
second), comparing element by element from the front. -/
def splitCommon {α : Type} [DecidableEq α] : List α → List α → List α × List α × List α
  | x :: xs, y :: ys =>
      if x = y then
        let r := splitCommon xs ys
        (x :: r.1, r.2.1, r.2.2)
      else ([], x :: xs, y :: ys)
  | xs, ys => ([], xs, ys)

/-- Splits two lists into (remainder of first, remainder of second, common
suffix). -/
def splitCommonSuffix {α : Type} [DecidableEq α] (xs ys : List α) : List α × List α × List α :=
  let r := splitCommon xs.reverse ys.reverse
  (r.2.1.reverse, r.2.2.reverse, r.1.reverse)

/-- Replaces every CR-LF pair by LF, the embedding of the
`replace(/\r\n/g, "\n")` post-processing applied to span texts in
src/app/routes/api.compare.tsx. -/
def normalizeCRLF : Str → Str
  | [] => []
  | '\r' :: '\n' :: rest => '\n' :: normalizeCRLF rest
  | c :: rest => c :: normalizeCRLF rest

/-- True when the text contains a CR directly followed by an LF. -/
def containsCRLF : Str → Bool
  | [] => false
  | c :: rest =>
      ((c == '\r') && (match rest with
        | c2 :: _ => c2 == '\n'
        | [] => false)) || containsCRLF rest

/-- Builds the span list (change, text) with change -1 = delete, 0 = equal,
1 = insert, omitting empty spans, from a common prefix, a deleted middle, an
inserted middle and a common suffix. -/
def mkDmpSpans (pre midS midT suf : Str) : List (Int × Str) :=
  (if pre = [] then [] else [((0 : Int), pre)]) ++
  (if midS = [] then [] else [((-1 : Int), midS)]) ++
  (if midT = [] then [] else [((1 : Int), midT)]) ++
  (if suf = [] then [] else [((0 : Int), suf)])

/-- Modelled from the spec: the character-mode diff engine
(`diff_match_patch.diff_main` followed by `diff_cleanupSemantic`), which is
third-party library code not present in the repository sources.  The spec
describes it as producing an ordered sequence of equal/insert/delete spans
forming an edit script between the two texts; it is modelled as the common
prefix (equal), the source remainder (delete), the target remainder
(insert) and the common suffix (equal), with empty spans omitted. -/
def dmpDiff (s t : Str) : List (Int × Str) :=
  let p := splitCommon s t
  let q := splitCommonSuffix p.2.1 p.2.2
  mkDmpSpans p.1 q.1 q.2.1 q.2.2

/-- Concatenates, in order, the texts of the insert and equal spans. -/
def reconTarget (ds : List (Int × Str)) : Str :=
  ((ds.filter (fun p => p.1 == 0 || p.1 == 1)).map (fun p => p.2)).flatten

/-- Concatenates, in order, the texts of the delete and equal spans. -/
def reconSource (ds : List (Int × Str)) : Str :=
  ((ds.filter (fun p => p.1 == 0 || p.1 == -1)).map (fun p => p.2)).flatten

/-- The embedding of JavaScript `text.split("\n")`: the pieces between
newline characters, so that an empty text yields one empty piece. -/
def splitNewline : Str → List Str
  | [] => [[]]
  | c :: rest =>
      if c = '\n' then [] :: splitNewline rest
      else
        match splitNewline rest with
        | [] => [[c]]
        | l :: ls => (c :: l) :: ls

/-- The per-span line counter from the stats loop:
`text.split("\n").length - 1`. -/
def jsSplitNlCount (txt : Str) : Nat := (splitNewline txt).length - 1

/-- Aggregate statistics of one diff result. -/
structure DiffStats where
  additions : Nat
  deletions : Nat
  linesChanged : Nat
deriving DecidableEq, Repr

/-- The stats loop from src/app/routes/api.compare.tsx: walk the spans, add
`text.split("\n").length - 1` to `additions` for insert spans and to
`deletions` for delete spans, then set
`linesChanged = additions + deletions`. -/
def computeStats (ds : List (Int × Str)) : DiffStats :=
  let p := ds.foldl
    (fun acc d =>
      if d.1 == 1 then (acc.1 + jsSplitNlCount d.2, acc.2)
      else if d.1 == -1 then (acc.1, acc.2 + jsSplitNlCount d.2)
      else acc)
    (0, 0)
  ⟨p.1, p.2, p.1 + p.2⟩

/-- The JSON object returned by the direct-diff path of the compare
endpoint. -/
structure DirectDiffResult where
  sourceContent : Str
  targetContent : Str
  diffs : List (Int × Str)
  stats : DiffStats
deriving DecidableEq, Repr

/-- The direct-diff branch of the compare loader
(src/app/routes/api.compare.tsx lines 40-61): run the character diff, compute
the stats from the raw spans, and return the spans with each span text's
CR-LF pairs replaced by LF. -/
def directDiffResult (s t : Str) : DirectDiffResult :=
  let ds := dmpDiff s t
  { sourceContent := s
    targetContent := t
    diffs := ds.map (fun p => (p.1, normalizeCRLF p.2))
    stats := computeStats ds }

/-- The query parameters consulted by the compare loader before its
authentication step. -/
structure CompareParams where
  sourceContent : Option Str
  targetContent : Option Str

/-- The compare loader (src/app/routes/api.compare.tsx lines 35-66) up to and
including its authentication decision: when both `sourceContent` and
`targetContent` query parameters are present (strings), it computes and
returns the direct diff result without authenticating; otherwise it falls
through to `authenticate.admin(request)`.  The first component records
whether the authentication call is reached. -/
def compareLoader (ps : CompareParams) : Bool × Option DirectDiffResult :=
  match ps.sourceContent, ps.targetContent with
  | some s, some t => (false, some (directDiffResult s t))
  | _, _ => (true, none)

/-- One asset object as returned by the remote store: optional `value`
(text) and optional `attachment` (base64 text). -/
structure AssetData where
  value : Option String
  attachment : Option String
deriving DecidableEq, Repr

/-- JavaScript `a || b` on an optional string: the left operand unless it is
missing or falsy (the empty string). -/
def jsOrString : Option String → String → String
  | some v, b => if v = "" then b else v
  | none, b => b

/-- The body extraction `data.asset?.value || data.asset?.attachment || ""`
shared by getAssetContent (src/app/routes/api.scan.tsx line 55) and
getThemeFileContent (src/app/routes/api.compare.tsx line 32). -/
def getAssetBody (a : AssetData) : String :=
  jsOrString a.value (jsOrString a.attachment "")

/-- What the claim describes: `value ?? attachment ?? absent`, i.e. the
nullish-coalescing chain under which a present-but-empty `value` is itself
the body. -/
def specAssetBody (a : AssetData) : Option String :=
  match a.value with
  | some v => some v
  | none => a.attachment

/-- JavaScript `filename.endsWith(ext)`: the extension's characters are a
suffix of the filename's characters. -/
def strEndsWith (filename ext : String) : Bool :=
  List.isSuffixOf ext.data filename.data

/-- The extension allow-list (src/app/routes/api.scan.tsx line 97). -/
def allowedExtensions : List String := [".js", ".json", ".liquid"]

/-- The extension filter (src/app/routes/api.scan.tsx lines 98-100): keep a
key when some allowed extension is a suffix of it. -/
def filterByExtension (files : List String) : List String :=
  files.filter (fun filename => allowedExtensions.any (fun ext => strEndsWith filename ext))

/-- The key sequence of a JavaScript object built by
`Object.fromEntries(list.map(f => [f.key, f]))`: each key at its first
occurrence, in listing order.  (Array-index-like keys, which JavaScript
objects would reorder, do not occur among theme asset paths.) -/
def objKeysFirst : List String → List String
  | [] => []
  | k :: rest => k :: objKeysFirst (rest.filter (fun x => x ≠ k))
termination_by l => l.length
decreasing_by
  simp only [List.length_cons]
  exact Nat.lt_succ_of_le (List.length_filter_le _ _)

/-- The reconciler (src/app/routes/api.scan.tsx lines 87-95): keys of the
source map kept when also present in the target map, in source listing
order. -/
def filesInBoth (srcKeys tgtKeys : List String) : List String :=
  (objKeysFirst srcKeys).filter (fun k => decide (k ∈ tgtKeys))

/-- Partitions a text into lines, each line keeping its trailing newline;
an empty text yields no lines. -/
def linesKeepNl : Str → List Str
  | [] => []
  | c :: rest =>
      if c = '\n' then ['\n'] :: linesKeepNl rest
      else
        match linesKeepNl rest with
        | [] => [[c]]
        | l :: ls => (c :: l) :: ls

/-- One element of a `diffLines` result: a run of lines with flags telling
whether the run was added or removed. -/
structure DiffPart where
  added : Bool
  removed : Bool
  value : Str
deriving DecidableEq, Repr

/-- Builds the part list of a line diff from a common prefix run, a removed
run, an added run and a common suffix run, omitting empty runs and joining
each run's lines into its `value`. -/
def mkLineParts (pre midS midT suf : List Str) : List DiffPart :=
  (if pre = [] then [] else [⟨false, false, pre.flatten⟩]) ++
  (if midS = [] then [] else [⟨false, true, midS.flatten⟩]) ++
  (if midT = [] then [] else [⟨true, false, midT.flatten⟩]) ++
  (if suf = [] then [] else [⟨false, false, suf.flatten⟩])

/-- Modelled from the spec: `diffLines` from the `diff` npm package, which
is third-party library code not present in the repository sources.  The
spec describes it as partitioning both texts into lines (each span's text
preserving line content and trailing newlines) and producing equal, insert
and delete line runs; it is modelled as the common line prefix (equal), the
source's remaining lines (removed), the target's remaining lines (added)
and the common line suffix (equal), with empty runs omitted. -/
def diffLinesModel (s t : Str) : List DiffPart :=
  let ls := linesKeepNl s
  let lt := linesKeepNl t
  let p := splitCommon ls lt
  let q := splitCommonSuffix p.2.1 p.2.2
  mkLineParts p.1 q.1 q.2.1 q.2.2

/-- One line of the progress stream emitted during the per-file loop.  The
source emits JSON objects; the error line's template string
`Error processing KEY: MESSAGE` is modelled by carrying the key and the
message as separate fields. -/
inductive ScanEvent where
  | scanning (currentFile : String) (scannedFiles : Nat)
  | diffing (scannedFiles diffedFiles : Nat) (currentFile : String) (isDifferent : Bool)
  | fileError (scannedFiles : Nat) (currentFile : String) (message : String)
deriving DecidableEq, Repr

/-- The per-file entry stored in `diffContents` for a differing key. -/
structure DiffEntry where
  sourceContent : Str
  targetContent : Str
  diffResult : List DiffPart
  isDifferent : Bool
deriving DecidableEq, Repr

/-- The mutable locals of the streaming scan loop
(src/app/routes/api.scan.tsx lines 111-114) plus the events enqueued so
far. -/
structure ScanState where
  scanned : Nat
  diffed : Nat
  differentFiles : List String
  diffContents : List (String × DiffEntry)
  events : List ScanEvent
deriving DecidableEq, Repr

def initialScanState : ScanState := ⟨0, 0, [], [], []⟩

/-- One iteration of the per-file loop (src/app/routes/api.scan.tsx lines
126-183).  `fetch` abstracts the pair of `getAssetContent` calls for a key:
`Except.error` is a thrown fetch failure (caught by the per-key handler),
`Except.ok` the two fetched bodies. -/
def processKey (fetch : String → Except String (Str × Str)) (st : ScanState) (key : String) :
    ScanState :=
  let st1 :=
    if st.scanned % 5 == 0 then
      { st with events := st.events ++ [ScanEvent.scanning key st.scanned] }
    else st
  match fetch key with
  | Except.error msg =>
      { st1 with
        scanned := st1.scanned + 1
        events := st1.events ++ [ScanEvent.fileError (st1.scanned + 1) key msg] }
  | Except.ok (s, t) =>
      let diffResult := diffLinesModel s t
      let isDifferent := diffResult.any (fun p => p.added || p.removed)
      let st2 :=
        if isDifferent && !s.isEmpty && !t.isEmpty then
          { st1 with
            scanned := st1.scanned + 1
            differentFiles := st1.differentFiles ++ [key]
            diffContents := st1.diffContents ++
              [(key, ⟨s, t, diffResult.filter (fun p => p.added || p.removed), true⟩)] }
        else { st1 with scanned := st1.scanned + 1 }
      let st3 := { st2 with diffed := st2.diffed + 1 }
      if st3.diffed % 5 == 0 || isDifferent then
        { st3 with
          events := st3.events ++
            [ScanEvent.diffing st3.scanned st3.differentFiles.length key isDifferent] }
      else st3

/-- The whole per-file loop over the filtered intersection. -/
def runScan (fetch : String → Except String (Str × Str)) (keys : List String) : ScanState :=
  keys.foldl (processKey fetch) initialScanState

/-- The final stream line (src/app/routes/api.scan.tsx lines 185-196). -/
structure ScanReport where
  files : List String
  diffContents : List (String × DiffEntry)
  totalFiles : Nat
  scannedFiles : Nat
  diffedFiles : Nat
  done : Bool
deriving DecidableEq, Repr

def scanReport (fetch : String → Except String (Str × Str)) (keys : List String) : ScanReport :=
  let st := runScan fetch keys
  ⟨st.differentFiles, st.diffContents, keys.length, st.scanned, st.differentFiles.length, true⟩

/-- An error thrown by a fetch task: the remote status plus a message. -/
structure TaskError where
  status : Int
  message : String
deriving DecidableEq, Repr

/-- The RateLimiter field minRequestInterval: 1 request per second. -/
def minRequestInterval : Nat := 1000

/-- The RateLimiter field maxRetries. -/
def maxRetries : Nat := 3

/-- RateLimiter.executeWithRetry: run the task; on an error whose status is
429 and while fewer than `maxRetries` retries have happened, sleep
`2 ^ retryCount * minRequestInterval` and retry; any other error is
rethrown.  The task is modelled as a function from the attempt number to
its outcome; the result pairs the outcome propagated to the caller with the
list of backoff delays slept, in order. -/
def executeWithRetry {α : Type} (task : Nat → Except TaskError α) (retryCount : Nat) :
    Except TaskError α × List Nat :=
  match task retryCount with
  | Except.ok a => (Except.ok a, [])
  | Except.error e =>
      if e.status = 429 ∧ retryCount < maxRetries then
        let r := executeWithRetry task (retryCount + 1)
        (r.1, (2 ^ retryCount * minRequestInterval) :: r.2)
      else (Except.error e, [])
termination_by maxRetries + 1 - retryCount
decreasing_by
  rename_i h
  omega

/-- The outcome RateLimiter.enqueue resolves or rejects with. -/
def enqueueResult {α : Type} (task : Nat → Except TaskError α) : Except TaskError α :=
  (executeWithRetry task 0).1

/-- The backoff delays slept on behalf of one enqueued task. -/
def enqueueDelays {α : Type} (task : Nat → Except TaskError α) : List Nat :=
  (executeWithRetry task 0).2

/-- The clock state of the queue drain loop: the current time and the
`lastRequestTime` field. -/
structure LimiterClock where
  now : Int
  lastRequestTime : Int
deriving DecidableEq, Repr

/-- RateLimiter.processQueue: the drain loop runs tasks one at a time; each
iteration waits `max(0, minRequestInterval - (now - lastRequestTime))`,
records the start time into `lastRequestTime`, and awaits the task (whose
duration advances the clock).  Returns the start times of the dispatched
tasks in order; `interval` abstracts the configured minimum interval (1000
in the source). -/
def dispatchStarts (interval : Int) : LimiterClock → List Int → List Int
  | _, [] => []
  | st, dur :: rest =>
      let timeToWait := max 0 (interval - (st.now - st.lastRequestTime))
      let start := st.now + timeToWait
      start :: dispatchStarts interval ⟨start + dur, start⟩ rest

/-- Fixture: the 12 keys of the spec's failing-file scenario. -/
def c1Keys : List String :=
  ["file1", "file2", "file3", "file4", "file5", "file6", "file7", "file8", "file9",
   "file10", "file11", "file12"]

/-- Fixture: a fetch in which key file7 throws and every other key yields
identical bodies. -/
def c1Fetch : String → Except String (Str × Str) := fun k =>
  if k = "file7" then Except.error "Failed to fetch asset: file7"
  else Except.ok (['x'], ['x'])

/-- Fixture: a fetch that succeeds on every key with differing one-character
bodies. -/
def c3Fetch : String → Except String (Str × Str) := fun _ =>
  Except.ok (['x'], ['y'])

/-- Fixture: a task that fails with HTTP 429 on every attempt. -/
def throttledTask : Nat → Except TaskError Nat := fun _ =>
  Except.error ⟨429, "Exceeded rate limit"⟩

/-- Fixture: a task that fails with HTTP 500 on every attempt. -/
def failingTask : Nat → Except TaskError Nat := fun _ =>
  Except.error ⟨500, "Internal server error"⟩

theorem splitCommon_append {α : Type} [DecidableEq α] :
    ∀ (xs ys : List α),
      xs = (splitCommon xs ys).1 ++ (splitCommon xs ys).2.1 ∧
      ys = (splitCommon xs ys).1 ++ (splitCommon xs ys).2.2
  | [], ys => by simp [splitCommon]
  | x :: xs, [] => by simp [splitCommon]
  | x :: xs, y :: ys => by
      by_cases h : x = y
      · have ih := splitCommon_append xs ys
        simp only [splitCommon, if_pos h]
        subst h
        exact ⟨by rw [List.cons_append, ← ih.1], by rw [List.cons_append, ← ih.2]⟩
      · simp [splitCommon, if_neg h]

theorem splitCommon_self {α : Type} [DecidableEq α] :
    ∀ (xs : List α), splitCommon xs xs = (xs, [], [])
  | [] => by simp [splitCommon]
  | x :: xs => by simp [splitCommon, splitCommon_self xs]

theorem splitCommonSuffix_append {α : Type} [DecidableEq α] (xs ys : List α) :
    xs = (splitCommonSuffix xs ys).1 ++ (splitCommonSuffix xs ys).2.2 ∧
    ys = (splitCommonSuffix xs ys).2.1 ++ (splitCommonSuffix xs ys).2.2 := by
  have h := splitCommon_append xs.reverse ys.reverse
  constructor
  · have hx := congrArg List.reverse h.1
    simpa [splitCommonSuffix] using hx
  · have hy := congrArg List.reverse h.2
    simpa [splitCommonSuffix] using hy

theorem splitCommonSuffix_self {α : Type} [DecidableEq α] (xs : List α) :
    splitCommonSuffix xs xs = ([], [], xs) := by
  simp [splitCommonSuffix, splitCommon_self]

theorem containsCRLF_cons_false {c : Char} {x : Str}
    (h : containsCRLF (c :: x) = false) : containsCRLF x = false := by
  simp only [containsCRLF, Bool.or_eq_false_iff] at h
  exact h.2

theorem containsCRLF_append_false :
    ∀ (a b : Str), containsCRLF (a ++ b) = false →
      containsCRLF a = false ∧ containsCRLF b = false
  | [], b, h => ⟨rfl, h⟩
  | c :: a, b, h => by
      have htail : containsCRLF (a ++ b) = false := containsCRLF_cons_false h
      have ih := containsCRLF_append_false a b htail
      refine ⟨?_, ih.2⟩
      simp only [containsCRLF, Bool.or_eq_false_iff] at h ⊢
      refine ⟨?_, ih.1⟩
      cases a with
      | nil => simp
      | cons c2 rest => simpa using h.1

theorem normalizeCRLF_eq_self (x : Str) (h : containsCRLF x = false) : normalizeCRLF x = x := by
  induction x using normalizeCRLF.induct with
  | case1 => rfl
  | case2 rest ih =>
      exfalso
      simp [containsCRLF] at h
  | case3 c rest hne ih =>
      have htail : containsCRLF rest = false := containsCRLF_cons_false h
      rw [normalizeCRLF]
      · rw [ih htail]
      · exact hne

theorem reconTarget_mkDmpSpans (a b c d : Str) :
    reconTarget (mkDmpSpans a b c d) = a ++ c ++ d := by
  unfold reconTarget mkDmpSpans
  split <;> split <;> split <;> split <;> simp_all

theorem reconSource_mkDmpSpans (a b c d : Str) :
    reconSource (mkDmpSpans a b c d) = a ++ b ++ d := by
  unfold reconSource mkDmpSpans
  split <;> split <;> split <;> split <;> simp_all

/-- Both inputs written as common prefix ++ own middle ++ common suffix
around the pieces produced by trimming with `splitCommon` and then
`splitCommonSuffix`. -/
theorem splitPieces {α : Type} [DecidableEq α] (s t : List α) :
    s = (splitCommon s t).1 ++ (splitCommonSuffix (splitCommon s t).2.1 (splitCommon s t).2.2).1 ++
        (splitCommonSuffix (splitCommon s t).2.1 (splitCommon s t).2.2).2.2 ∧
    t = (splitCommon s t).1 ++ (splitCommonSuffix (splitCommon s t).2.1 (splitCommon s t).2.2).2.1 ++
        (splitCommonSuffix (splitCommon s t).2.1 (splitCommon s t).2.2).2.2 := by
  have h1 := splitCommon_append s t
  have h2 := splitCommonSuffix_append (splitCommon s t).2.1 (splitCommon s t).2.2
  constructor
  · conv_lhs => rw [h1.1]
    rw [List.append_assoc, ← h2.1]
  · conv_lhs => rw [h1.2]
    rw [List.append_assoc, ← h2.2]

/-- After trimming, the two middles are empty exactly when the inputs were
equal. -/
theorem splitPieces_middle_empty_iff {α : Type} [DecidableEq α] (s t : List α) :
    ((splitCommonSuffix (splitCommon s t).2.1 (splitCommon s t).2.2).1 = [] ∧
     (splitCommonSuffix (splitCommon s t).2.1 (splitCommon s t).2.2).2.1 = []) ↔ s = t := by
  constructor
  · intro h
    have hp := splitPieces s t
    have h1 := hp.1
    have h2 := hp.2
    rw [h.1] at h1
    rw [h.2] at h2
    exact h1.trans h2.symm
  · intro h
    subst h
    simp [splitCommon_self, splitCommonSuffix_self]

/-- Round-trip law for the modelled diff: insert+equal spans rebuild the
target, delete+equal spans rebuild the source. -/
theorem dmpDiff_roundtrip (s t : Str) :
    reconTarget (dmpDiff s t) = t ∧ reconSource (dmpDiff s t) = s := by
  have h := splitPieces s t
  unfold dmpDiff
  rw [reconTarget_mkDmpSpans, reconSource_mkDmpSpans]
  exact ⟨h.2.symm, h.1.symm⟩

theorem splitNewline_length (x : Str) :
    (splitNewline x).length = x.count '\n' + 1 := by
  induction x with
  | nil => simp [splitNewline]
  | cons c rest ih =>
      by_cases h : c = '\n'
      · subst h
        simp [splitNewline, List.count_cons, ih]
      · rw [splitNewline, if_neg h]
        rcases hr : splitNewline rest with _ | ⟨l, ls⟩
        · rw [hr] at ih; simp at ih
        · rw [hr] at ih
          simp only [List.length_cons] at ih ⊢
          rw [List.count_cons, if_neg (by simp [h]), ih]

theorem jsSplitNlCount_eq_count (txt : Str) : jsSplitNlCount txt = txt.count '\n' := by
  simp [jsSplitNlCount, splitNewline_length]

theorem count_nl_normalizeCRLF (x : Str) :
    (normalizeCRLF x).count '\n' = x.count '\n' := by
  induction x using normalizeCRLF.induct with
  | case1 => rfl
  | case2 rest ih =>
      simp [normalizeCRLF, List.count_cons, ih]
  | case3 c rest hne ih =>
      rw [normalizeCRLF]
      · simp [List.count_cons, ih]
      · exact hne

theorem computeStats_foldl (ds : List (Int × Str)) :
    ∀ (a b : Nat),
      ds.foldl
        (fun acc d =>
          if d.1 == 1 then (acc.1 + jsSplitNlCount d.2, acc.2)
          else if d.1 == -1 then (acc.1, acc.2 + jsSplitNlCount d.2)
          else acc)
        (a, b) =
      (a + ((ds.filter (fun p => p.1 == 1)).map (fun p => jsSplitNlCount p.2)).sum,
       b + ((ds.filter (fun p => p.1 == -1)).map (fun p => jsSplitNlCount p.2)).sum) := by
  induction ds with
  | nil => simp
  | cons d rest ih =>
      intro a b
      rw [List.foldl_cons]
      by_cases h1 : d.1 = 1
      · have hb : (d.1 == 1) = true := by simp [h1]
        have hb2 : (d.1 == -1) = false := by simp [h1]
        rw [if_pos hb, ih]
        simp [List.filter_cons, hb, hb2, Nat.add_assoc]
      · by_cases h2 : d.1 = -1
        · have hb : (d.1 == 1) = false := by simp [h1]
          have hb2 : (d.1 == -1) = true := by simp [h2]
          rw [if_neg (by simp [hb]), if_pos hb2, ih]
          simp [List.filter_cons, hb, hb2, Nat.add_assoc]
        · have hb : (d.1 == 1) = false := by simp [h1]
          have hb2 : (d.1 == -1) = false := by simp [h2]
          rw [if_neg (by simp [hb]), if_neg (by simp [hb2]), ih]
          simp [List.filter_cons, hb, hb2]

theorem mem_objKeysFirst : ∀ (l : List String) (k : String), k ∈ objKeysFirst l ↔ k ∈ l
  | [], k => by simp [objKeysFirst]
  | x :: rest, k => by
      simp only [objKeysFirst]
      by_cases h : k = x
      · subst h; simp
      · simp only [List.mem_cons]
        rw [mem_objKeysFirst (rest.filter (fun y => y ≠ x)) k]
        simp [h]
termination_by l => l.length
decreasing_by
  simp only [List.length_cons]
  exact Nat.lt_succ_of_le (List.length_filter_le _ _)

theorem objKeysFirst_sublist : ∀ (l : List String), List.Sublist (objKeysFirst l) l
  | [] => by simp [objKeysFirst]
  | x :: rest => by
      simp only [objKeysFirst]
      exact List.Sublist.cons₂ x
        ((objKeysFirst_sublist (rest.filter (fun y => y ≠ x))).trans (List.filter_sublist rest))
termination_by l => l.length
decreasing_by
  simp only [List.length_cons]
  exact Nat.lt_succ_of_le (List.length_filter_le _ _)

theorem linesKeepNl_flatten : ∀ (x : Str), (linesKeepNl x).flatten = x
  | [] => rfl
  | c :: rest => by
      rw [linesKeepNl]
      by_cases h : c = '\n'
      · rw [if_pos h, h]
        simp [linesKeepNl_flatten rest]
      · rw [if_neg h]
        have hflat := linesKeepNl_flatten rest
        rcases hr : linesKeepNl rest with _ | ⟨l, ls⟩
        · rw [hr] at hflat
          simp only [List.flatten_nil] at hflat
          simp [← hflat]
        · rw [hr] at hflat
          simp only [List.flatten_cons] at hflat ⊢
          rw [List.cons_append, hflat]

theorem linesKeepNl_injective {s t : Str} (h : linesKeepNl s = linesKeepNl t) : s = t := by
  have := congrArg List.flatten h
  rwa [linesKeepNl_flatten, linesKeepNl_flatten] at this

theorem mkLineParts_hasChange (a b c d : List Str) :
    ((mkLineParts a b c d).any (fun p => p.added || p.removed) = true) ↔ (b ≠ [] ∨ c ≠ []) := by
  unfold mkLineParts
  split <;> split <;> split <;> split <;> simp_all

/-- The modelled line diff reports an added or removed part exactly when the
two texts differ. -/
theorem diffLinesModel_change_iff (s t : Str) :
    ((diffLinesModel s t).any (fun p => p.added || p.removed) = true) ↔ s ≠ t := by
  unfold diffLinesModel
  rw [mkLineParts_hasChange]
  constructor
  · intro h hst
    subst hst
    rcases h with h | h <;>
      [skip; skip] <;>
      · apply h
        have := (splitPieces_middle_empty_iff (linesKeepNl s) (linesKeepNl s)).2 rfl
        first
          | exact this.1
          | exact this.2
  · intro hne
    by_contra hcon
    push_neg at hcon
    exact hne (linesKeepNl_injective
      ((splitPieces_middle_empty_iff (linesKeepNl s) (linesKeepNl t)).1 ⟨hcon.1, hcon.2⟩))

theorem processKey_scanned (fetch : String → Except String (Str × Str)) (st : ScanState)
    (key : String) : (processKey fetch st key).scanned = st.scanned + 1 := by
  cases hf : fetch key with
  | error msg =>
      simp only [processKey, hf]
      split <;> simp
  | ok p =>
      obtain ⟨s, t⟩ := p
      simp only [processKey, hf]
      split <;> split <;> split <;> simp

theorem runScan_scanned_aux (fetch : String → Except String (Str × Str)) :
    ∀ (keys : List String) (st : ScanState),
      (keys.foldl (processKey fetch) st).scanned = st.scanned + keys.length
  | [], st => by simp
  | k :: rest, st => by
      rw [List.foldl_cons, runScan_scanned_aux fetch rest, processKey_scanned]
      simp [Nat.add_comm, Nat.add_assoc, Nat.add_left_comm]

/-- The scan always completes: every key is counted, whether it fetched or
failed. -/
theorem runScan_scanned (fetch : String → Except String (Str × Str)) (keys : List String) :
    (runScan fetch keys).scanned = keys.length := by
  rw [runScan, runScan_scanned_aux]
  simp [initialScanState]

theorem processKey_shape (fetch : String → Except String (Str × Str)) (st : ScanState)
    (key : String) :
    ((processKey fetch st key).differentFiles = st.differentFiles ∧
     (processKey fetch st key).diffContents = st.diffContents) ∨
    (∃ e, (processKey fetch st key).differentFiles = st.differentFiles ++ [key] ∧
          (processKey fetch st key).diffContents = st.diffContents ++ [(key, e)]) := by
  cases hf : fetch key with
  | error msg =>
      left
      simp only [processKey, hf]
      split <;> simp
  | ok p =>
      obtain ⟨s, t⟩ := p
      simp only [processKey, hf]
      split <;> split <;> split <;> simp

theorem processKey_error_fields (fetch : String → Except String (Str × Str)) (st : ScanState)
    (k : String) (msg : String) (hf : fetch k = Except.error msg) :
    (processKey fetch st k).differentFiles = st.differentFiles ∧
    (processKey fetch st k).diffContents = st.diffContents := by
  simp only [processKey, hf]
  split <;> simp

theorem processKey_events_mono (fetch : String → Except String (Str × Str)) (st : ScanState)
    (key : String) (ev : ScanEvent) (h : ev ∈ st.events) :
    ev ∈ (processKey fetch st key).events := by
  cases hf : fetch key with
  | error msg =>
      simp only [processKey, hf]
      split <;> simp [h]
  | ok p =>
      obtain ⟨s, t⟩ := p
      simp only [processKey, hf]
      split <;> split <;> split <;> simp [h]

theorem processKey_error_event (fetch : String → Except String (Str × Str)) (st : ScanState)
    (k : String) (msg : String) (hf : fetch k = Except.error msg) :
    ScanEvent.fileError (st.scanned + 1) k msg ∈ (processKey fetch st k).events := by
  simp only [processKey, hf]
  split <;> simp

theorem lookup_append_single_none {β : Type} (l : List (String × β)) (k k' : String) (e : β)
    (h1 : l.lookup k = none) (h2 : k ≠ k') : (l ++ [(k', e)]).lookup k = none := by
  induction l with
  | nil =>
      simp [List.lookup, beq_false_of_ne h2]
  | cons a rest ih =>
      obtain ⟨ka, ea⟩ := a
      rw [List.cons_append]
      cases hk : (k == ka) with
      | true =>
          exfalso
          simp [List.lookup, hk] at h1
      | false =>
          simp only [List.lookup, hk] at h1 ⊢
          exact ih h1

theorem processKey_error_preserved (fetch : String → Except String (Str × Str)) (st : ScanState)
    (key k : String) (msg : String) (hf : fetch k = Except.error msg)
    (h1 : k ∉ st.differentFiles) (h2 : st.diffContents.lookup k = none) :
    k ∉ (processKey fetch st key).differentFiles ∧
    (processKey fetch st key).diffContents.lookup k = none := by
  by_cases hk : key = k
  · subst hk
    have h := processKey_error_fields fetch st key msg hf
    rw [h.1, h.2]
    exact ⟨h1, h2⟩
  · rcases processKey_shape fetch st key with ⟨hd, hc⟩ | ⟨e, hd, hc⟩
    · rw [hd, hc]
      exact ⟨h1, h2⟩
    · rw [hd, hc]
      refine ⟨?_, lookup_append_single_none _ _ _ _ h2 (fun he => hk he.symm)⟩
      intro hmem
      rcases List.mem_append.1 hmem with hm | hm
      · exact h1 hm
      · exact hk (List.mem_singleton.1 hm).symm

theorem foldl_error_preserved (fetch : String → Except String (Str × Str)) (k : String)
    (msg : String) (hf : fetch k = Except.error msg) :
    ∀ (keys : List String) (st : ScanState),
      k ∉ st.differentFiles → st.diffContents.lookup k = none →
      k ∉ (keys.foldl (processKey fetch) st).differentFiles ∧
      (keys.foldl (processKey fetch) st).diffContents.lookup k = none
  | [], st, h1, h2 => ⟨h1, h2⟩
  | key :: rest, st, h1, h2 => by
      rw [List.foldl_cons]
      have h := processKey_error_preserved fetch st key k msg hf h1 h2
      exact foldl_error_preserved fetch k msg hf rest _ h.1 h.2

theorem foldl_events_mono (fetch : String → Except String (Str × Str)) :
    ∀ (keys : List String) (st : ScanState) (ev : ScanEvent),
      ev ∈ st.events → ev ∈ (keys.foldl (processKey fetch) st).events
  | [], _, _, h => h
  | key :: rest, st, ev, h => by
      rw [List.foldl_cons]
      exact foldl_events_mono fetch rest _ ev (processKey_events_mono fetch st key ev h)

theorem foldl_error_event (fetch : String → Except String (Str × Str)) (k : String)
    (msg : String) (hf : fetch k = Except.error msg) :
    ∀ (keys : List String) (st : ScanState), k ∈ keys →
      ∃ n, ScanEvent.fileError n k msg ∈ (keys.foldl (processKey fetch) st).events
  | [], _, hk => absurd hk (List.not_mem_nil _)
  | key :: rest, st, hk => by
      rw [List.foldl_cons]
      by_cases hkey : key = k
      · subst hkey
        exact ⟨st.scanned + 1,
          foldl_events_mono fetch rest _ _ (processKey_error_event fetch st key msg hf)⟩
      · rcases List.mem_cons.1 hk with h | h
        · exact absurd h.symm hkey
        · exact foldl_error_event fetch k msg hf rest _ h

theorem lookup_append_single_isSome {β : Type} (l : List (String × β)) (k : String) (e : β) :
    ((l ++ [(k, e)]).lookup k).isSome = true := by
  induction l with
  | nil => simp [List.lookup]
  | cons a rest ih =>
      obtain ⟨ka, ea⟩ := a
      rw [List.cons_append]
      cases hk : (k == ka) with
      | true => simp [List.lookup, hk]
      | false =>
          simp only [List.lookup, hk]
          exact ih

/-- The per-key classification of the scan loop: after a successful fetch of
bodies (s, t) for a fresh key k, the key lands in `differentFiles` and gets
a `diffContents` entry exactly when the line diff has an added or removed
part and both bodies are non-empty. -/
theorem processKey_classifies (fetch : String → Except String (Str × Str)) (st : ScanState)
    (k : String) (s t : Str) (hf : fetch k = Except.ok (s, t))
    (h1 : k ∉ st.differentFiles) :
    (k ∈ (processKey fetch st k).differentFiles ∧
     ((processKey fetch st k).diffContents.lookup k).isSome = true) ↔
    (((diffLinesModel s t).any fun p => p.added || p.removed) = true ∧ s ≠ [] ∧ t ≠ []) := by
  simp only [processKey, hf]
  split <;> split <;> split <;> simp_all [lookup_append_single_isSome] <;> assumption

theorem dispatchStarts_length (interval : Int) :
    ∀ (durs : List Int) (st : LimiterClock),
      (dispatchStarts interval st durs).length = durs.length
  | [], _ => rfl
  | dur :: rest, st => by
      rw [dispatchStarts]
      simp only [List.length_cons]
      rw [dispatchStarts_length interval rest]

theorem dispatchStarts_chain (interval : Int) :
    ∀ (durs : List Int) (st : LimiterClock),
      List.Chain' (fun a b => a + interval ≤ b) (dispatchStarts interval st durs)
  | [], _ => by simp [dispatchStarts]
  | [d], _ => by simp [dispatchStarts]
  | d :: d2 :: rest, st => by
      have ih := dispatchStarts_chain interval (d2 :: rest)
        ⟨st.now + max 0 (interval - (st.now - st.lastRequestTime)) + d,
         st.now + max 0 (interval - (st.now - st.lastRequestTime))⟩
      simp only [dispatchStarts] at ih ⊢
      rw [List.chain'_cons]
      exact ⟨by omega, ih⟩

theorem reconTarget_map_norm (a b c d : Str) :
    reconTarget ((mkDmpSpans a b c d).map (fun p => (p.1, normalizeCRLF p.2))) =
      normalizeCRLF a ++ normalizeCRLF c ++ normalizeCRLF d := by
  unfold reconTarget mkDmpSpans
  split <;> split <;> split <;> split <;> simp_all [normalizeCRLF]

theorem reconSource_map_norm (a b c d : Str) :
    reconSource ((mkDmpSpans a b c d).map (fun p => (p.1, normalizeCRLF p.2))) =
      normalizeCRLF a ++ normalizeCRLF b ++ normalizeCRLF d := by
  unfold reconSource mkDmpSpans
  split <;> split <;> split <;> split <;> simp_all [normalizeCRLF]

set_option maxRecDepth 8192 in
/-- C1, counterexample.  In the spec's own scenario — 12 files, file7's
fetch throws — the streaming scan orchestrator's final report does have
scannedFiles = 12 and file7 absent from the differing keys, but its
per-file map contains no entry at all for file7 (the error is emitted as a
stream event instead), contradicting perFile[file7] = error. -/
theorem C1_scan_error_counterexample :
    (scanReport c1Fetch c1Keys).scannedFiles = 12 ∧
    "file7" ∉ (scanReport c1Fetch c1Keys).files ∧
    (scanReport c1Fetch c1Keys).diffContents.lookup "file7" = none ∧
    (scanReport c1Fetch c1Keys).diffContents = [] := by
  refine ⟨?_, ?_, ?_, ?_⟩ <;> decide

/-- C1, amended.  When fetching a key fails, the streaming scan orchestrator
emits a stream event carrying the incremented scanned count and the error
message, leaves the per-file map and the differing-keys list without any
entry for that key, and continues: the scan still completes with
scannedFiles equal to the total number of keys. -/
theorem C1_scan_error_isolated (fetch : String → Except String (Str × Str))
    (keys : List String) (k : String) (msg : String)
    (hk : k ∈ keys) (hf : fetch k = Except.error msg) :
    (scanReport fetch keys).scannedFiles = keys.length ∧
    k ∉ (scanReport fetch keys).files ∧
    (scanReport fetch keys).diffContents.lookup k = none ∧
    (∃ n, ScanEvent.fileError n k msg ∈ (runScan fetch keys).events) := by
  have hpres := foldl_error_preserved fetch k msg hf keys initialScanState
    (by simp [initialScanState]) (by simp [initialScanState])
  exact ⟨runScan_scanned fetch keys, hpres.1, hpres.2,
    foldl_error_event fetch k msg hf keys initialScanState hk⟩

set_option maxRecDepth 8192 in
theorem C1_scan_error_isolated_witness :
    (scanReport c1Fetch c1Keys).scannedFiles = c1Keys.length ∧
    "file7" ∉ (scanReport c1Fetch c1Keys).files ∧
    (scanReport c1Fetch c1Keys).diffContents.lookup "file7" = none ∧
    (∃ n, ScanEvent.fileError n "file7" "Failed to fetch asset: file7"
      ∈ (runScan c1Fetch c1Keys).events) :=
  C1_scan_error_isolated c1Fetch c1Keys "file7" "Failed to fetch asset: file7"
    (by decide) rfl

/-- C2, counterexample.  For source "" and target "a\r\n", the spans as
returned to the caller are the insert span "a\n" (the return path replaces
CR-LF by LF inside span texts), so concatenating the insert and equal span
texts yields "a\n", not the target "a\r\n". -/
theorem C2_roundtrip_counterexample :
    reconTarget (directDiffResult [] ['a', '\r', '\n']).diffs = ['a', '\n'] ∧
    reconTarget (directDiffResult [] ['a', '\r', '\n']).diffs ≠
      (directDiffResult [] ['a', '\r', '\n']).targetContent := by
  exact ⟨by decide, by decide⟩

/-- C2, amended.  The round-trip law holds for the spans as returned to the
caller whenever neither input text contains a CR-LF pair (the return path
rewrites CR-LF to LF inside each span text, so for such inputs the spans
are returned verbatim): insert+equal spans rebuild the target and
delete+equal spans rebuild the source. -/
theorem C2_roundtrip_normalized (s t : Str)
    (hs : containsCRLF s = false) (ht : containsCRLF t = false) :
    reconTarget (directDiffResult s t).diffs = t ∧
    reconSource (directDiffResult s t).diffs = s := by
  obtain ⟨hs1, ht1⟩ := splitPieces s t
  rw [hs1] at hs
  rw [ht1] at ht
  obtain ⟨hac, hdT⟩ := containsCRLF_append_false _ _ ht
  obtain ⟨haT, hcT⟩ := containsCRLF_append_false _ _ hac
  obtain ⟨hab, hdS⟩ := containsCRLF_append_false _ _ hs
  obtain ⟨haS, hbS⟩ := containsCRLF_append_false _ _ hab
  constructor
  · show reconTarget ((mkDmpSpans (splitCommon s t).1
        (splitCommonSuffix (splitCommon s t).2.1 (splitCommon s t).2.2).1
        (splitCommonSuffix (splitCommon s t).2.1 (splitCommon s t).2.2).2.1
        (splitCommonSuffix (splitCommon s t).2.1 (splitCommon s t).2.2).2.2).map
          (fun p => (p.1, normalizeCRLF p.2))) = t
    rw [reconTarget_map_norm, normalizeCRLF_eq_self _ haT, normalizeCRLF_eq_self _ hcT,
      normalizeCRLF_eq_self _ hdT, ← ht1]
  · show reconSource ((mkDmpSpans (splitCommon s t).1
        (splitCommonSuffix (splitCommon s t).2.1 (splitCommon s t).2.2).1
        (splitCommonSuffix (splitCommon s t).2.1 (splitCommon s t).2.2).2.1
        (splitCommonSuffix (splitCommon s t).2.1 (splitCommon s t).2.2).2.2).map
          (fun p => (p.1, normalizeCRLF p.2))) = s
    rw [reconSource_map_norm, normalizeCRLF_eq_self _ haS, normalizeCRLF_eq_self _ hbS,
      normalizeCRLF_eq_self _ hdS, ← hs1]

theorem C2_roundtrip_normalized_witness :
    containsCRLF ['f', 'o', 'o', '\n'] = false ∧
    containsCRLF ['f', 'o', 'z', '\n'] = false ∧
    (reconTarget (directDiffResult ['f', 'o', 'o', '\n'] ['f', 'o', 'z', '\n']).diffs =
        ['f', 'o', 'z', '\n'] ∧
     reconSource (directDiffResult ['f', 'o', 'o', '\n'] ['f', 'o', 'z', '\n']).diffs =
        ['f', 'o', 'o', '\n']) :=
  ⟨by decide, by decide, C2_roundtrip_normalized _ _ (by decide) (by decide)⟩

/-- C3.  A key freshly processed by the scan loop after a successful fetch
of bodies (s, t) is classified as differing — appended to the differing
keys and given a per-file diff entry — if and only if the line diff of the
two bodies contains at least one added or removed part and both bodies are
non-empty; in particular a key whose bodies differ but with one side empty
is not classified as differing. -/
theorem C3_differs_classification (fetch : String → Except String (Str × Str))
    (st : ScanState) (k : String) (s t : Str)
    (hf : fetch k = Except.ok (s, t)) (h1 : k ∉ st.differentFiles) :
    (k ∈ (processKey fetch st k).differentFiles ∧
     ((processKey fetch st k).diffContents.lookup k).isSome = true) ↔
    (((diffLinesModel s t).any fun p => p.added || p.removed) = true ∧ s ≠ [] ∧ t ≠ []) :=
  processKey_classifies fetch st k s t hf h1

theorem C3_differs_classification_witness :
    ("a.liquid" ∈ (processKey c3Fetch initialScanState "a.liquid").differentFiles ∧
     ((processKey c3Fetch initialScanState "a.liquid").diffContents.lookup "a.liquid").isSome =
       true) ↔
    (((diffLinesModel ['x'] ['y']).any fun p => p.added || p.removed) = true ∧
      ['x'] ≠ [] ∧ ['y'] ≠ []) :=
  C3_differs_classification c3Fetch initialScanState "a.liquid" ['x'] ['y'] rfl (by decide)

/-- C4.  A task that fails with HTTP 429 on every attempt is retried with
backoff delays interval*2^0, interval*2^1, interval*2^2 — three retries —
after which the 429 failure propagates to the caller of enqueue; a task
whose failure has any other status propagates immediately, with no backoff
delay slept. -/
theorem C4_throttle_retry_policy {α : Type} (task : Nat → Except TaskError α) (e : TaskError) :
    ((∀ n, task n = Except.error e) → e.status = 429 →
      enqueueResult task = Except.error e ∧
      enqueueDelays task = [minRequestInterval, 2 * minRequestInterval,
        4 * minRequestInterval]) ∧
    (task 0 = Except.error e → e.status ≠ 429 →
      enqueueResult task = Except.error e ∧ enqueueDelays task = []) := by
  constructor
  · intro hall h429
    have h3 : executeWithRetry task 3 = (Except.error e, []) := by
      rw [executeWithRetry, hall 3]
      simp [maxRetries]
    have h2 : executeWithRetry task 2 = (Except.error e, [4 * minRequestInterval]) := by
      rw [executeWithRetry, hall 2]
      simp [maxRetries, h429, h3]
    have h1 : executeWithRetry task 1 =
        (Except.error e, [2 * minRequestInterval, 4 * minRequestInterval]) := by
      rw [executeWithRetry, hall 1]
      simp [maxRetries, h429, h2]
    have h0 : executeWithRetry task 0 =
        (Except.error e, [minRequestInterval, 2 * minRequestInterval,
          4 * minRequestInterval]) := by
      rw [executeWithRetry, hall 0]
      simp [maxRetries, h429, h1]
    exact ⟨by rw [enqueueResult, h0], by rw [enqueueDelays, h0]⟩
  · intro h0 hne
    have h : executeWithRetry task 0 = (Except.error e, []) := by
      rw [executeWithRetry, h0]
      simp [hne]
    exact ⟨by rw [enqueueResult, h], by rw [enqueueDelays, h]⟩

theorem C4_throttle_retry_policy_witness :
    (enqueueResult throttledTask = Except.error ⟨429, "Exceeded rate limit"⟩ ∧
     enqueueDelays throttledTask = [1000, 2000, 4000]) ∧
    (enqueueResult failingTask = Except.error ⟨500, "Internal server error"⟩ ∧
     enqueueDelays failingTask = []) :=
  ⟨(C4_throttle_retry_policy throttledTask ⟨429, "Exceeded rate limit"⟩).1
      (fun _ => rfl) rfl,
   (C4_throttle_retry_policy failingTask ⟨500, "Internal server error"⟩).2
      rfl (by decide)⟩

/-- C5.  The queue drain loop dispatches its tasks strictly one at a time
(the start-time list has one entry per task, in order), and the start times
of any two consecutively dispatched tasks are at least the configured
minimum inter-request interval apart — for every interval, every initial
clock state and every list of task durations. -/
theorem C5_min_gap_between_starts (interval : Int) (st : LimiterClock) (durs : List Int) :
    (dispatchStarts interval st durs).length = durs.length ∧
    List.Chain' (fun a b => a + interval ≤ b) (dispatchStarts interval st durs) :=
  ⟨dispatchStarts_length interval durs st, dispatchStarts_chain interval durs st⟩

/-- C6.  The extension filter keeps exactly the keys ending in .js, .json
or .liquid, and on the spec's scenario keeps a.json and b.liquid while
dropping c.txt. -/
theorem C6_extension_filter :
    (∀ (fs : List String) (k : String),
      k ∈ filterByExtension fs ↔
        k ∈ fs ∧ (strEndsWith k ".js" || strEndsWith k ".json" || strEndsWith k ".liquid") =
          true) ∧
    filterByExtension ["a.json", "b.liquid", "c.txt"] = ["a.json", "b.liquid"] := by
  constructor
  · intro fs k
    simp [filterByExtension, allowedExtensions, List.mem_filter, Bool.or_assoc]
  · decide

/-- C7.  The reconciler returns exactly the keys present in both listings —
membership in the result is equivalent to membership in both listings — and
the result follows the source theme's listing order (it is a sublist of the
source listing), regardless of how many keys are exclusive to either
side. -/
theorem C7_intersection (srcKeys tgtKeys : List String) :
    (∀ k, k ∈ filesInBoth srcKeys tgtKeys ↔ k ∈ srcKeys ∧ k ∈ tgtKeys) ∧
    List.Sublist (filesInBoth srcKeys tgtKeys) srcKeys := by
  constructor
  · intro k
    rw [filesInBoth, List.mem_filter, mem_objKeysFirst]
    simp
  · exact (List.filter_sublist _).trans (objKeysFirst_sublist srcKeys)

theorem stats_sum_eq (ds : List (Int × Str)) (v : Int) :
    (((ds.map (fun p => (p.1, normalizeCRLF p.2))).filter (fun p => p.1 == v)).map
        (fun p => p.2.count '\n')).sum =
    ((ds.filter (fun p => p.1 == v)).map (fun p => jsSplitNlCount p.2)).sum := by
  rw [List.filter_map, List.map_map]
  congr 1
  apply List.map_congr_left
  intro p _
  simp only [Function.comp_apply]
  rw [jsSplitNlCount_eq_count, count_nl_normalizeCRLF]

/-- C8.  In every returned diff result, linesChanged equals additions plus
deletions, where additions is the total number of newline characters in the
insert spans and deletions the total in the delete spans (a span without a
newline contributes zero). -/
theorem C8_stats_invariant (s t : Str) :
    (directDiffResult s t).stats.linesChanged =
      (directDiffResult s t).stats.additions + (directDiffResult s t).stats.deletions ∧
    (directDiffResult s t).stats.additions =
      (((directDiffResult s t).diffs.filter (fun p => p.1 == 1)).map
        (fun p => p.2.count '\n')).sum ∧
    (directDiffResult s t).stats.deletions =
      (((directDiffResult s t).diffs.filter (fun p => p.1 == -1)).map
        (fun p => p.2.count '\n')).sum := by
  refine ⟨rfl, ?_, ?_⟩
  · show (computeStats (dmpDiff s t)).additions = _
    rw [computeStats]
    show (List.foldl _ (0, 0) (dmpDiff s t)).1 = _
    rw [computeStats_foldl (dmpDiff s t) 0 0]
    show 0 + _ = _
    rw [Nat.zero_add]
    show _ = ((((dmpDiff s t).map (fun p => (p.1, normalizeCRLF p.2))).filter
        (fun p => p.1 == 1)).map (fun p => p.2.count '\n')).sum
    rw [stats_sum_eq]
  · show (computeStats (dmpDiff s t)).deletions = _
    rw [computeStats]
    show (List.foldl _ (0, 0) (dmpDiff s t)).2 = _
    rw [computeStats_foldl (dmpDiff s t) 0 0]
    show 0 + _ = _
    rw [Nat.zero_add]
    show _ = ((((dmpDiff s t).map (fun p => (p.1, normalizeCRLF p.2))).filter
        (fun p => p.1 == -1)).map (fun p => p.2.count '\n')).sum
    rw [stats_sum_eq]

/-- C9, counterexample.  For an asset whose value field is present but
empty and whose attachment is a non-empty string, the code's body
extraction (a JavaScript truthiness chain) falls through to the
attachment, while the claim's nullish chain value then attachment would
make the empty value itself the body. -/
theorem C9_empty_value_counterexample :
    getAssetBody ⟨some "", some "YXNzZXQ="⟩ = "YXNzZXQ=" ∧
    specAssetBody ⟨some "", some "YXNzZXQ="⟩ = some "" := by
  exact ⟨rfl, rfl⟩

/-- C9, amended.  The engine takes as the body the first truthy field of
the chain: the value field when it is present and non-empty, otherwise the
attachment field when present and non-empty, otherwise the empty string —
so a present-but-empty value field falls through to the attachment. -/
theorem C9_body_first_truthy (a : AssetData) :
    (∀ v, a.value = some v → v ≠ "" → getAssetBody a = v) ∧
    (∀ w, (a.value = none ∨ a.value = some "") → a.attachment = some w → w ≠ "" →
      getAssetBody a = w) ∧
    ((a.value = none ∨ a.value = some "") → (a.attachment = none ∨ a.attachment = some "") →
      getAssetBody a = "") := by
  obtain ⟨v, w⟩ := a
  refine ⟨?_, ?_, ?_⟩
  · intro x hv hx
    subst hv
    simp [getAssetBody, jsOrString, hx]
  · intro x hv hw hx
    subst hw
    rcases hv with h | h <;> subst h <;> simp [getAssetBody, jsOrString, hx]
  · intro hv hw
    rcases hv with h | h <;> rcases hw with h2 | h2 <;> subst h <;> subst h2 <;>
      simp [getAssetBody, jsOrString]

theorem C9_body_first_truthy_witness :
    getAssetBody ⟨some "", some "YmFzZTY0"⟩ = "YmFzZTY0" :=
  (C9_body_first_truthy ⟨some "", some "YmFzZTY0"⟩).2.1 "YmFzZTY0"
    (Or.inr rfl) rfl (by decide)

/-- C10.  When both sourceContent and targetContent query parameters are
present, the compare loader returns the direct diff result without
reaching the authentication call; when at least one of them is absent, the
authentication call is reached. -/
theorem C10_direct_diff_skips_auth (ps : CompareParams) :
    (∀ s t, ps.sourceContent = some s → ps.targetContent = some t →
      (compareLoader ps).1 = false ∧ (compareLoader ps).2 = some (directDiffResult s t)) ∧
    ((ps.sourceContent = none ∨ ps.targetContent = none) → (compareLoader ps).1 = true) := by
  obtain ⟨sc, tc⟩ := ps
  constructor
  · intro s t hs ht
    subst hs
    subst ht
    exact ⟨rfl, rfl⟩
  · intro h
    rcases h with h | h <;> subst h
    · rfl
    · cases sc <;> rfl

theorem C10_direct_diff_skips_auth_witness :
    ((compareLoader ⟨some ['a'], some ['b']⟩).1 = false ∧
     (compareLoader ⟨some ['a'], some ['b']⟩).2 = some (directDiffResult ['a'] ['b'])) ∧
    (compareLoader ⟨none, some ['b']⟩).1 = true :=
  ⟨(C10_direct_diff_skips_auth ⟨some ['a'], some ['b']⟩).1 ['a'] ['b'] rfl rfl,
   (C10_direct_diff_skips_auth ⟨none, some ['b']⟩).2 (Or.inl rfl)⟩

end ThemeWatch
